import Mathlib

/-!
A verification development for `tools/databake.py`: the tool reads one binary
file, optionally compresses it, and prints a C++ byte-array literal together
with a one-line registration macro on standard output.

Byte buffers are modelled as `List Nat` (Python iterates over a `bytes` value
as the integers 0..255), the text written to standard output as a `String`,
and the external zlib compressor as an explicit function argument (the tool
only ever observes the bytes the compressor returns).  Python's float literal
`0.75` is exactly `3/4`, so the size-ratio comparison is carried out in `ℚ`;
`ZeroDivisionError` and a failing file read are modelled with `Except`.
-/

/-- Source constant `COMPRESS_RATIO_NEEDED = 0.75` (exactly `3/4`): the
maximum ratio of compressed to uncompressed size that makes compression
worthwhile. -/
def COMPRESS_RATIO_NEEDED : ℚ := 3 / 4

/-- Source constant `BYTES_PER_LINE = 16`. -/
def BYTES_PER_LINE : Nat := 16

/-- Source constant `DO_COMPRESS = False`: the module-level compression
toggle.  Functions that read this global take it as an explicit argument, and
this constant is its value in the source. -/
def DO_COMPRESS : Bool := false

/-- Source `should_compress(uncompressed, compressed)`, which returns
`DO_COMPRESS and (len(compressed) / len(uncompressed) <= COMPRESS_RATIO_NEEDED)`.
The Python `and` short-circuits, so the division happens only when the toggle
is on; when it does happen with `len(uncompressed) == 0` it raises
`ZeroDivisionError`, modelled as `.error ()`. -/
def should_compress (doCompress : Bool) (uncompressed compressed : List Nat) :
    Except Unit Bool :=
  if doCompress then
    if uncompressed.length = 0 then .error ()
    else .ok (decide
      ((compressed.length : ℚ) / (uncompressed.length : ℚ) ≤ COMPRESS_RATIO_NEEDED))
  else .ok false

/-- The text written after the byte at index `i` of a buffer of length `len`
in source `emit_bytes`: a bare newline after the last byte, `",\n"` after
every `BYTES_PER_LINE`-th byte, and a bare comma otherwise. -/
def sepAfter (len i : Nat) : String :=
  if i = len - 1 then "\n"
  else if i % BYTES_PER_LINE = BYTES_PER_LINE - 1 then ",\n"
  else ","

/-- Source `emit_bytes(out, bytes)`: for each `(i, c)` in `enumerate(bytes)`
it writes `str(c)` followed by the separator chosen from `i`.  The value here
is the total text those writes append to `out`. -/
def emit_bytes (bytes : List Nat) : String :=
  bytes.enum.foldl (fun out ic => out ++ (Nat.repr ic.2 ++ sepAfter bytes.length ic.1)) ""

/-- Source `main` begins with `if not emitted_name: emitted_name = filename`;
the falsy values of the optional argument are `None` and the empty string. -/
def effectiveName (filename : String) (emitted_name : Option String) : String :=
  match emitted_name with
  | none => filename
  | some s => if s = "" then filename else s

/-- Outcome of one invocation: everything written to standard output, and the
process exit status (`0` on success, `1` when an uncaught Python exception
terminates the run). -/
structure RunResult where
  stdout : String
  exitCode : Nat
deriving DecidableEq

/-- Source `main(filename, emitted_name=None)`.  The file read
`bytes(filename)` and the compressor `zlib.compress(data, 9)` are external
effects and enter as arguments: `readResult` is `.error ()` when the
open/read raises, and `compress` is the compressor.  In the source the read
(line 36) and the `should_compress` call (line 38) both happen before the
first `out.write` (line 43), so on either failure nothing has been written;
on success the returned `stdout` is the concatenation of the seven
`out.write` calls in source order, with the final `'"%s", %d, data);\n'`
`%`-interpolation spelled out as a concatenation. -/
def main_run (readResult : Except Unit (List Nat)) (compress : List Nat → List Nat)
    (doCompress : Bool) (filename : String) (emitted_name : Option String) :
    RunResult :=
  match readResult with
  | .error _ => ⟨"", 1⟩
  | .ok fileData =>
    let compressed_data := compress fileData
    match should_compress doCompress fileData compressed_data with
    | .error _ => ⟨"", 1⟩
    | .ok compressed =>
      let data := if compressed then compressed_data else fileData
      ⟨"#include <util/staticfile.hpp>\n\n"
        ++ "static const unsigned char data[]\x7b\n"
        ++ emit_bytes data
        ++ "\x7d;\n\n"
        ++ (if compressed then "UTIL_COMPRESSED_FILE(" else "UTIL_FILE(")
        ++ ("\"" ++ effectiveName filename emitted_name ++ "\", "
            ++ Nat.repr data.length ++ ", data);\n"),
       0⟩

/-- The `__main__` block: with more than two entries in `sys.argv` it calls
`main(sys.argv[1], sys.argv[2])`, otherwise `main(sys.argv[1])`. -/
def mainEntry (readResult : Except Unit (List Nat)) (compress : List Nat → List Nat)
    (doCompress : Bool) (argv : List String) : RunResult :=
  if argv.length > 2 then
    main_run readResult compress doCompress (argv.getD 1 "") (some (argv.getD 2 ""))
  else
    main_run readResult compress doCompress (argv.getD 1 "") none

/-- The emitted-text contract of the spec, with the pieces the spec
enumerates: the inclusion directive line, a blank line, the array opening
line, the formatted bytes of `buf`, the array closing followed by a blank
line, and the registration line carrying the quoted `name`, the byte count
of `buf`, a comma, the identifier `data`, and the closing parenthesis. -/
def outputFor (name : String) (buf : List Nat) (compressed : Bool) : String :=
  "#include <util/staticfile.hpp>\n" ++ "\n"
    ++ "static const unsigned char data[]\x7b\n"
    ++ emit_bytes buf
    ++ "\x7d;\n" ++ "\n"
    ++ (if compressed then "UTIL_COMPRESSED_FILE(" else "UTIL_FILE(")
    ++ "\"" ++ name ++ "\", " ++ Nat.repr buf.length ++ ", data);\n"

/-- Reference rendering of one output line: the decimal forms of the bytes
separated by commas. -/
def lineStr : List Nat → String
  | [] => ""
  | [c] => Nat.repr c
  | c :: c2 :: rest => Nat.repr c ++ "," ++ lineStr (c2 :: rest)

/-- Reference rendering of the array body from its lines: lines separated by
`",\n"`, with a final bare newline after the last line. -/
def linesStr : List (List Nat) → String
  | [] => ""
  | [l] => lineStr l ++ "\n"
  | l :: l2 :: rest => lineStr l ++ ",\n" ++ linesStr (l2 :: rest)

/-- The buffer cut into chunks of sixteen bytes, one chunk per output line. -/
def chunks16 (l : List Nat) : List (List Nat) :=
  if h : l = [] then [] else l.take 16 :: chunks16 (l.drop 16)
termination_by l.length
decreasing_by
  have hl : 0 < l.length := List.length_pos.mpr h
  simp [List.length_drop]
  omega

/-- Recursive form of the byte-formatting loop: `col` is the running index;
the last byte is followed by a newline, a byte at `col % 16 = 15` by `",\n"`,
any other byte by a comma. -/
def emitAux : List Nat → Nat → String
  | [], _ => ""
  | [c], _ => Nat.repr c ++ "\n"
  | c :: c2 :: rest, col =>
      Nat.repr c ++ (if col % 16 = 15 then ",\n" else ",") ++ emitAux (c2 :: rest) (col + 1)

/-- Appending strings is associative (the underlying character lists are
appended). -/
theorem strAppend_assoc (a b c : String) : a ++ b ++ c = a ++ (b ++ c) :=
  String.ext (by simp [String.data_append])

/-- No value of `Nat.digitChar` is the newline character. -/
theorem digitChar_ne_newline : ∀ m : Nat, Nat.digitChar m ≠ '\n' := by
  intro m
  match m with
  | 0 | 1 | 2 | 3 | 4 | 5 | 6 | 7 | 8 | 9 | 10 | 11 | 12 | 13 | 14 | 15 => decide
  | n + 16 =>
    unfold Nat.digitChar
    have hA : ¬ (n + 16 = 0) := by omega
    have hB : ¬ (n + 16 = 1) := by omega
    have hC : ¬ (n + 16 = 2) := by omega
    have hD : ¬ (n + 16 = 3) := by omega
    have hE : ¬ (n + 16 = 4) := by omega
    have hF : ¬ (n + 16 = 5) := by omega
    have hG : ¬ (n + 16 = 6) := by omega
    have hH : ¬ (n + 16 = 7) := by omega
    have hI : ¬ (n + 16 = 8) := by omega
    have hJ : ¬ (n + 16 = 9) := by omega
    have hK : ¬ (n + 16 = 10) := by omega
    have hL : ¬ (n + 16 = 11) := by omega
    have hM : ¬ (n + 16 = 12) := by omega
    have hN : ¬ (n + 16 = 13) := by omega
    have hP : ¬ (n + 16 = 14) := by omega
    have hQ : ¬ (n + 16 = 15) := by omega
    rw [if_neg hA, if_neg hB, if_neg hC, if_neg hD, if_neg hE, if_neg hF, if_neg hG,
        if_neg hH, if_neg hI, if_neg hJ, if_neg hK, if_neg hL, if_neg hM, if_neg hN,
        if_neg hP, if_neg hQ]
    decide

/-- `Nat.toDigitsCore` only ever adds digit characters to its accumulator. -/
theorem toDigitsCore_no_newline (b : Nat) : ∀ (fuel n : Nat) (acc : List Char),
    '\n' ∉ acc → '\n' ∉ Nat.toDigitsCore b fuel n acc := by
  intro fuel
  induction fuel with
  | zero => intro n acc hacc; simpa [Nat.toDigitsCore] using hacc
  | succ f ih =>
    intro n acc hacc
    rw [Nat.toDigitsCore]
    split
    · intro hmem
      rcases List.mem_cons.mp hmem with h | h
      · exact digitChar_ne_newline _ h.symm
      · exact hacc h
    · apply ih
      intro hmem
      rcases List.mem_cons.mp hmem with h | h
      · exact digitChar_ne_newline _ h.symm
      · exact hacc h

/-- The decimal form of a natural number contains no newline. -/
theorem repr_no_newline (n : Nat) : '\n' ∉ (Nat.repr n).data := by
  have h : (Nat.repr n).data = Nat.toDigits 10 n := rfl
  rw [h, Nat.toDigits]
  exact toDigitsCore_no_newline 10 _ _ [] (by simp)

/-- Counting newlines in a decimal numeral gives zero. -/
theorem repr_count_newline (n : Nat) : (Nat.repr n).data.count '\n' = 0 :=
  List.count_eq_zero.mpr (repr_no_newline n)

theorem chunks16_nil : chunks16 [] = [] := by
  unfold chunks16
  simp

theorem chunks16_cons (l : List Nat) (h : l ≠ []) :
    chunks16 l = l.take 16 :: chunks16 (l.drop 16) := by
  conv_lhs => unfold chunks16
  simp [h]

/-- The formatting loop only depends on the running index modulo 16. -/
theorem emitAux_mod (l : List Nat) : ∀ c, emitAux l c = emitAux l (c % 16) := by
  induction l with
  | nil => intro c; rfl
  | cons x tl ih =>
    intro c
    cases tl with
    | nil => rfl
    | cons y tl2 =>
      simp only [emitAux]
      rw [ih (c + 1), ih (c % 16 + 1)]
      have h1 : c % 16 % 16 = c % 16 := by omega
      have h2 : (c + 1) % 16 = (c % 16 + 1) % 16 := by omega
      rw [h1, h2]

theorem lineStr_cons (x : Nat) (l : List Nat) (h : l ≠ []) :
    lineStr (x :: l) = Nat.repr x ++ "," ++ lineStr l := by
  cases l with
  | nil => exact absurd rfl h
  | cons y tl => rfl

/-- The enumerated fold of `emit_bytes`, started at index `s` with `acc`
already written, appends exactly `emitAux bs s` (provided `s` is consistent
with the total length used to detect the final byte). -/
theorem emit_fold_eq_emitAux (len : Nat) : ∀ (bs : List Nat) (s : Nat) (acc : String),
    s + bs.length = len →
    (List.enumFrom s bs).foldl
        (fun out ic => out ++ (Nat.repr ic.2 ++ sepAfter len ic.1)) acc
      = acc ++ emitAux bs s := by
  intro bs
  induction bs with
  | nil => intro s acc _; simp [emitAux, String.append_empty]
  | cons x tl ih =>
    intro s acc hlen
    cases tl with
    | nil =>
      have hs : s = len - 1 := by simp at hlen; omega
      simp only [List.enumFrom, List.foldl, emitAux]
      rw [sepAfter, if_pos hs]
    | cons y tl2 =>
      have hs : ¬ (s = len - 1) := by simp at hlen; omega
      have hstep := ih (s + 1) (acc ++ (Nat.repr x ++ sepAfter len s)) (by simp at hlen ⊢; omega)
      simp only [List.enumFrom, List.foldl] at hstep ⊢
      rw [hstep]
      simp only [emitAux, sepAfter, BYTES_PER_LINE, if_neg hs, strAppend_assoc]

/-- `emit_bytes` agrees with the recursive formatting loop started at
index 0. -/
theorem emit_bytes_eq_emitAux (bs : List Nat) : emit_bytes bs = emitAux bs 0 := by
  have h := emit_fold_eq_emitAux bs.length bs 0 "" (by simp)
  unfold emit_bytes
  have henum : bs.enum = List.enumFrom 0 bs := rfl
  rw [henum, h, String.empty_append]

/-- Newline count of the formatting loop: one break after the final byte and
one inside every earlier full group of sixteen. -/
theorem emitAux_count_newline : ∀ (l : List Nat) (c : Nat),
    (emitAux l c).data.count '\n'
      = if l.length = 0 then 0 else 1 + (l.length - 1 + c % 16) / 16 := by
  intro l
  induction l with
  | nil => intro c; simp [emitAux]
  | cons x tl ih =>
    intro c
    cases tl with
    | nil =>
      have h1 : (("\n" : String)).data = ['\n'] := rfl
      simp [emitAux, String.data_append, List.count_append, repr_count_newline, h1]
    | cons y tl2 =>
      have hih := ih (c + 1)
      have h1 : ((",\n" : String)).data = [',', '\n'] := rfl
      have h2 : (("," : String)).data = [','] := rfl
      simp only [emitAux, String.data_append, List.count_append, repr_count_newline] at hih ⊢
      by_cases hc : c % 16 = 15
      · rw [if_pos hc, hih]
        simp [h1, List.count_cons]
        omega
      · rw [if_neg hc, hih]
        simp [h2, List.count_cons]
        omega

/-- Peeling one output line off the formatting loop: starting within a line
(`c` bytes already on it), the next `16 - c` bytes form one comma-separated
line, closed either by the final newline or by `",\n"` and the rest of the
loop. -/
theorem emitAux_take_drop : ∀ (l : List Nat) (c : Nat), l ≠ [] → c ≤ 15 →
    emitAux l c = lineStr (l.take (16 - c))
      ++ (if l.length ≤ 16 - c then "\n" else ",\n" ++ emitAux (l.drop (16 - c)) 0) := by
  intro l
  induction l with
  | nil => intro c h; exact absurd rfl h
  | cons x tl ih =>
    intro c _ hc
    cases tl with
    | nil =>
      have ht : ([x] : List Nat).take (16 - c) = [x] := List.take_of_length_le (by simp; omega)
      rw [ht, if_pos (by simp; omega)]
      rfl
    | cons y tl2 =>
      have hmod : c % 16 = c := Nat.mod_eq_of_lt (by omega)
      by_cases h15 : c = 15
      · subst h15
        have hunfold : emitAux (x :: y :: tl2) 15
            = Nat.repr x ++ ",\n" ++ emitAux (y :: tl2) 16 := rfl
        have h0 : emitAux (y :: tl2) 16 = emitAux (y :: tl2) 0 := by
          have hm := emitAux_mod (y :: tl2) 16
          simpa using hm
        have h16 : 16 - 15 = 1 := rfl
        rw [hunfold, h0, h16]
        have ht : (x :: y :: tl2).take 1 = [x] := rfl
        have hd : (x :: y :: tl2).drop 1 = y :: tl2 := rfl
        have hlen2 : (x :: y :: tl2).length = tl2.length + 2 := by simp
        rw [ht, hd, if_neg (by rw [hlen2]; omega)]
        have hl : lineStr [x] = Nat.repr x := rfl
        rw [hl, strAppend_assoc]
      · have hlt : c < 15 := by omega
        simp only [emitAux, hmod, if_neg h15]
        rw [ih (c + 1) (by simp) (by omega)]
        have harith : 16 - (c + 1) = 15 - c := by omega
        rw [harith]
        have ht : (x :: y :: tl2).take (16 - c) = x :: (y :: tl2).take (15 - c) := by
          have : 16 - c = (15 - c) + 1 := by omega
          rw [this, List.take_succ_cons]
        have hd : (x :: y :: tl2).drop (16 - c) = (y :: tl2).drop (15 - c) := by
          have : 16 - c = (15 - c) + 1 := by omega
          rw [this, List.drop_succ_cons]
        rw [ht, hd]
        have hne : (y :: tl2).take (15 - c) ≠ [] := by
          have : 15 - c ≥ 1 := by omega
          cases h : (y :: tl2).take (15 - c) with
          | nil =>
            have := congrArg List.length h
            simp at this
            omega
          | cons a b => simp
        rw [lineStr_cons x _ hne]
        have hiff : (x :: y :: tl2).length ≤ 16 - c ↔ (y :: tl2).length ≤ 15 - c := by
          simp
          omega
        by_cases hlen : (y :: tl2).length ≤ 15 - c
        · rw [if_pos hlen, if_pos (hiff.mpr hlen)]
          simp [strAppend_assoc]
        · rw [if_neg hlen, if_neg (fun hx => hlen (hiff.mp hx))]
          simp [strAppend_assoc]

/-- The formatting loop renders exactly the sixteen-byte chunks of the
buffer, comma-joined within a line, `",\n"` between lines, newline at the
end. -/
theorem emitAux_eq_linesStr : ∀ (n : Nat) (l : List Nat), l.length ≤ n →
    emitAux l 0 = linesStr (chunks16 l) := by
  intro n
  induction n with
  | zero =>
    intro l hl
    have : l = [] := List.eq_nil_of_length_eq_zero (by omega)
    subst this
    rw [chunks16_nil]
    rfl
  | succ n ih =>
    intro l hl
    by_cases hnil : l = []
    · subst hnil
      rw [chunks16_nil]
      rfl
    · rw [emitAux_take_drop l 0 hnil (by omega), chunks16_cons l hnil]
      have h16 : 16 - 0 = 16 := rfl
      rw [h16]
      by_cases hlen : l.length ≤ 16
      · rw [if_pos hlen]
        have hdrop : l.drop 16 = [] := List.drop_eq_nil_of_le hlen
        rw [hdrop, chunks16_nil]
        rfl
      · rw [if_neg hlen]
        have hdne : l.drop 16 ≠ [] := by
          intro hx
          have := congrArg List.length hx
          simp [List.length_drop] at this
          omega
        have hih : emitAux (l.drop 16) 0 = linesStr (chunks16 (l.drop 16)) := by
          apply ih
          have : (l.drop 16).length = l.length - 16 := by simp [List.length_drop]
          omega
        rw [hih, chunks16_cons _ hdne, ← strAppend_assoc]
        rfl

/-- `emit_bytes` renders the sixteen-byte chunks of the buffer. -/
theorem emit_bytes_eq_linesStr (bs : List Nat) :
    emit_bytes bs = linesStr (chunks16 bs) := by
  rw [emit_bytes_eq_emitAux]
  exact emitAux_eq_linesStr bs.length bs le_rfl

/-- Flattening the sixteen-byte chunks gives the buffer back. -/
theorem chunks16_flatten : ∀ (n : Nat) (l : List Nat), l.length ≤ n →
    (chunks16 l).flatten = l := by
  intro n
  induction n with
  | zero =>
    intro l hl
    have : l = [] := List.eq_nil_of_length_eq_zero (by omega)
    subst this
    rw [chunks16_nil]
    rfl
  | succ n ih =>
    intro l hl
    by_cases hnil : l = []
    · subst hnil
      rw [chunks16_nil]
      rfl
    · rw [chunks16_cons l hnil]
      have hih : (chunks16 (l.drop 16)).flatten = l.drop 16 := by
        apply ih
        have hcase : 0 < l.length := List.length_pos.mpr hnil
        have : (l.drop 16).length = l.length - 16 := by simp [List.length_drop]
        omega
      simp [hih]

/-- Every chunk holds at most sixteen bytes. -/
theorem chunks16_le : ∀ (n : Nat) (l : List Nat), l.length ≤ n →
    ∀ ch ∈ chunks16 l, ch.length ≤ 16 := by
  intro n
  induction n with
  | zero =>
    intro l hl
    have : l = [] := List.eq_nil_of_length_eq_zero (by omega)
    subst this
    rw [chunks16_nil]
    intro ch hch
    exact absurd hch (List.not_mem_nil ch)
  | succ n ih =>
    intro l hl
    by_cases hnil : l = []
    · subst hnil
      rw [chunks16_nil]
      intro ch hch
      exact absurd hch (List.not_mem_nil ch)
    · rw [chunks16_cons l hnil]
      intro ch hch
      rcases List.mem_cons.mp hch with h | h
      · subst h
        simpa using List.length_take_le 16 l
      · apply ih (l.drop 16) _ ch h
        have hcase : 0 < l.length := List.length_pos.mpr hnil
        have : (l.drop 16).length = l.length - 16 := by simp [List.length_drop]
        omega

/-- The formatting loop always ends with the decimal form of the last byte
followed by a bare newline: no comma follows the final value. -/
theorem emitAux_trailing : ∀ (l : List Nat) (c : Nat), l ≠ [] →
    ∃ p, emitAux l c = p ++ (Nat.repr (l.getLastD 0) ++ "\n") := by
  intro l
  induction l with
  | nil => intro c h; exact absurd rfl h
  | cons x tl ih =>
    intro c _
    cases tl with
    | nil =>
      refine ⟨"", ?_⟩
      rw [String.empty_append]
      rfl
    | cons y tl2 =>
      obtain ⟨p, hp⟩ := ih (c + 1) (by simp)
      refine ⟨Nat.repr x ++ (if c % 16 = 15 then ",\n" else ",") ++ p, ?_⟩
      have hunfold : emitAux (x :: y :: tl2) c
          = Nat.repr x ++ (if c % 16 = 15 then ",\n" else ",") ++ emitAux (y :: tl2) (c + 1) :=
        rfl
      have hlast : (x :: y :: tl2).getLastD 0 = (y :: tl2).getLastD 0 := rfl
      rw [hunfold, hp, hlast]
      simp [strAppend_assoc]

/-- With the toggle off the conjunction short-circuits: no division occurs
and the answer is `False` whatever the buffers are. -/
theorem should_compress_of_false (u c : List Nat) :
    should_compress false u c = .ok false := rfl

/-- `should_compress` returns normally whenever the toggle is off or the
input is non-empty. -/
theorem should_compress_exists (dc : Bool) (u c : List Nat)
    (h : dc = false ∨ u ≠ []) : ∃ flag, should_compress dc u c = .ok flag := by
  cases dc with
  | false => exact ⟨false, rfl⟩
  | true =>
    have hu : u ≠ [] := by
      rcases h with h | h
      · simp at h
      · exact h
    refine ⟨decide ((c.length : ℚ) / (u.length : ℚ) ≤ COMPRESS_RATIO_NEEDED), ?_⟩
    unfold should_compress
    rw [if_pos rfl, if_neg (by simp [List.length_eq_zero]; exact hu)]

/-- A successful run prints exactly the documented output: the selected
buffer is the compressed bytes when `should_compress` said yes and the raw
bytes otherwise, and the same buffer supplies both the array body and the
registration length. -/
theorem main_run_ok (data : List Nat) (cmp : List Nat → List Nat) (dc : Bool)
    (fn : String) (nm : Option String) (flag : Bool)
    (h : should_compress dc data (cmp data) = .ok flag) :
    main_run (.ok data) cmp dc fn nm
      = ⟨outputFor (effectiveName fn nm) (if flag then cmp data else data) flag, 0⟩ := by
  have e1 : ∀ X : String,
      "#include <util/staticfile.hpp>\n" ++ ("\n" ++ X)
        = "#include <util/staticfile.hpp>\n\n" ++ X := by
    intro X
    rw [← strAppend_assoc]
    rfl
  have e2 : ∀ X : String, "\x7d;\n" ++ ("\n" ++ X) = "\x7d;\n\n" ++ X := by
    intro X
    rw [← strAppend_assoc]
    rfl
  simp only [main_run]
  rw [h]
  simp only [outputFor, strAppend_assoc]
  rw [e1, e2]

/-- `should_compress` answers yes when the toggle is on, the input is
non-empty, and the size ratio is at most the threshold. -/
theorem should_compress_true_le (u c : List Nat) (hne : u ≠ [])
    (hr : (c.length : ℚ) / (u.length : ℚ) ≤ COMPRESS_RATIO_NEEDED) :
    should_compress true u c = .ok true := by
  unfold should_compress
  rw [if_pos rfl, if_neg (by simp [List.length_eq_zero]; exact hne)]
  simp [hr]

/-- `should_compress` answers no when the toggle is on, the input is
non-empty, and the size ratio exceeds the threshold. -/
theorem should_compress_true_gt (u c : List Nat) (hne : u ≠ [])
    (hr : COMPRESS_RATIO_NEEDED < (c.length : ℚ) / (u.length : ℚ)) :
    should_compress true u c = .ok false := by
  unfold should_compress
  rw [if_pos rfl, if_neg (by simp [List.length_eq_zero]; exact hne)]
  simp [not_le.mpr hr]

/-- C1: for a non-empty input with the toggle enabled, a level-9 compressed
form whose size ratio is at most 0.75 makes the run print the
`UTIL_COMPRESSED_FILE` registration with the compressed buffer (its bytes in
the array and its length as the length argument); a ratio above 0.75 makes
it print `UTIL_FILE` with the original buffer and its length. -/
theorem C1_compression_selection (data : List Nat) (cmp : List Nat → List Nat)
    (fn : String) (nm : Option String) (hne : data ≠ []) :
    (((cmp data).length : ℚ) / (data.length : ℚ) ≤ COMPRESS_RATIO_NEEDED →
      main_run (.ok data) cmp true fn nm
        = ⟨outputFor (effectiveName fn nm) (cmp data) true, 0⟩)
  ∧ (COMPRESS_RATIO_NEEDED < ((cmp data).length : ℚ) / (data.length : ℚ) →
      main_run (.ok data) cmp true fn nm
        = ⟨outputFor (effectiveName fn nm) data false, 0⟩) := by
  constructor
  · intro hr
    simpa using
      main_run_ok data cmp true fn nm true (should_compress_true_le data (cmp data) hne hr)
  · intro hr
    simpa using
      main_run_ok data cmp true fn nm false (should_compress_true_gt data (cmp data) hne hr)

/-- Witness for C1 at a concrete input: four zero bytes whose mock-compressed
form is one byte (ratio 1/4) are emitted compressed. -/
theorem C1_compression_selection_witness :
    main_run (.ok [0, 0, 0, 0]) (fun _ => [7]) true "f.txt" none
      = ⟨outputFor "f.txt" [7] true, 0⟩ :=
  (C1_compression_selection [0, 0, 0, 0] (fun _ => [7]) "f.txt" none (by decide)).1
    (by norm_num [COMPRESS_RATIO_NEEDED])

/-- C2: the array body holds ceil(count/16) line breaks for a non-empty
buffer and none for an empty one; it is the comma-join of the buffer's
sixteen-byte chunks, so no line except possibly the last holds more than 16
values; and the final value is followed by a bare newline, never a comma. -/
theorem C2_emit_bytes_format (bs : List Nat) :
    ((emit_bytes bs).data.count '\n'
        = if bs.length = 0 then 0 else (bs.length + 15) / 16)
  ∧ emit_bytes bs = linesStr (chunks16 bs)
  ∧ (∀ ch ∈ chunks16 bs, ch.length ≤ 16)
  ∧ (bs ≠ [] → ∃ p, emit_bytes bs = p ++ (Nat.repr (bs.getLastD 0) ++ "\n")) := by
  refine ⟨?_, emit_bytes_eq_linesStr bs, chunks16_le bs.length bs le_rfl, ?_⟩
  · rw [emit_bytes_eq_emitAux, emitAux_count_newline]
    by_cases h : bs.length = 0
    · simp [h]
    · rw [if_neg h, if_neg h]
      omega
  · intro hne
    rw [emit_bytes_eq_emitAux]
    exact emitAux_trailing bs 0 hne

/-- Witness for C2 at a concrete buffer: three bytes give one line break and
an output ending in the last byte and a newline. -/
theorem C2_emit_bytes_format_witness :
    (emit_bytes [3, 1, 4]).data.count '\n' = 1
  ∧ (∃ p, emit_bytes [3, 1, 4] = p ++ (Nat.repr 4 ++ "\n")) :=
  ⟨by rw [(C2_emit_bytes_format [3, 1, 4]).1]; decide,
   (C2_emit_bytes_format [3, 1, 4]).2.2.2 (by decide)⟩

/-- C3: with compression disabled the emitted array body renders exactly the
input bytes — the chunks flatten back to the input, all values lie in
[0,255] — and the registration length argument is the input length; and for
every run that returns normally, the length argument is the byte count of
the very buffer placed in the array. -/
theorem C3_uncompressed_array (data : List Nat) (cmp : List Nat → List Nat)
    (fn : String) (nm : Option String) (hb : ∀ b ∈ data, b ≤ 255) :
    (main_run (.ok data) cmp false fn nm
        = ⟨outputFor (effectiveName fn nm) data false, 0⟩)
  ∧ emit_bytes data = linesStr (chunks16 data)
  ∧ (chunks16 data).flatten = data
  ∧ (∀ b ∈ (chunks16 data).flatten, b ≤ 255)
  ∧ (∀ dc flag : Bool, should_compress dc data (cmp data) = .ok flag →
      main_run (.ok data) cmp dc fn nm
        = ⟨outputFor (effectiveName fn nm) (if flag then cmp data else data) flag, 0⟩) := by
  refine ⟨?_, emit_bytes_eq_linesStr data, chunks16_flatten data.length data le_rfl, ?_, ?_⟩
  · simpa using main_run_ok data cmp false fn nm false (should_compress_of_false _ _)
  · intro b hbmem
    exact hb b (by rwa [chunks16_flatten data.length data le_rfl] at hbmem)
  · intro dc flag h
    exact main_run_ok data cmp dc fn nm flag h

/-- Witness for C3 at a concrete input of two bytes, both within [0,255]. -/
theorem C3_uncompressed_array_witness :
    main_run (.ok [0, 255]) (fun _ => [1, 2]) false "a" none
      = ⟨outputFor "a" [0, 255] false, 0⟩ :=
  (C3_uncompressed_array [0, 255] (fun _ => [1, 2]) "a" none (by decide)).1

/-- C4: a successful run prints, in order: the inclusion directive line, a
blank line, the array opening `static const unsigned char data[]` with an
opening brace, the formatted byte sequence, the closing brace and semicolon
followed by a blank line, and one registration line made of the macro name,
the quoted emitted name, the emitted buffer's byte count, a comma, the
identifier `data`, and the closing parenthesis. -/
theorem C4_output_structure (data : List Nat) (cmp : List Nat → List Nat)
    (dc : Bool) (fn : String) (nm : Option String) (h : dc = false ∨ data ≠ []) :
    ∃ flag : Bool, should_compress dc data (cmp data) = .ok flag ∧
      main_run (.ok data) cmp dc fn nm
        = ⟨"#include <util/staticfile.hpp>\n" ++ "\n"
            ++ "static const unsigned char data[]\x7b\n"
            ++ emit_bytes (if flag then cmp data else data)
            ++ "\x7d;\n" ++ "\n"
            ++ (if flag then "UTIL_COMPRESSED_FILE(" else "UTIL_FILE(")
            ++ "\"" ++ effectiveName fn nm ++ "\", "
            ++ Nat.repr (if flag then cmp data else data).length ++ ", data);\n", 0⟩ := by
  obtain ⟨flag, hflag⟩ := should_compress_exists dc data (cmp data) h
  exact ⟨flag, hflag, main_run_ok data cmp dc fn nm flag hflag⟩

/-- Witness for C4 at a concrete run with compression disabled. -/
theorem C4_output_structure_witness :
    ∃ flag : Bool,
      should_compress false [1, 2, 3] ((fun _ => ([] : List Nat)) [1, 2, 3]) = .ok flag ∧
      main_run (.ok [1, 2, 3]) (fun _ => ([] : List Nat)) false "p" (some "q")
        = ⟨"#include <util/staticfile.hpp>\n" ++ "\n"
            ++ "static const unsigned char data[]\x7b\n"
            ++ emit_bytes (if flag then (fun _ => ([] : List Nat)) [1, 2, 3] else [1, 2, 3])
            ++ "\x7d;\n" ++ "\n"
            ++ (if flag then "UTIL_COMPRESSED_FILE(" else "UTIL_FILE(")
            ++ "\"" ++ effectiveName "p" (some "q") ++ "\", "
            ++ Nat.repr (if flag then (fun _ => ([] : List Nat)) [1, 2, 3]
                else [1, 2, 3]).length ++ ", data);\n", 0⟩ :=
  C4_output_structure [1, 2, 3] (fun _ => ([] : List Nat)) false "p" (some "q") (Or.inl rfl)

/-- C5: a zero-length input (with the source's toggle value, which is off)
produces an empty array body and a registration line whose length argument
is 0. -/
theorem C5_empty_file (cmp : List Nat → List Nat) (fn : String) (nm : Option String) :
    main_run (.ok []) cmp DO_COMPRESS fn nm
      = ⟨outputFor (effectiveName fn nm) [] false, 0⟩
  ∧ emit_bytes [] = ""
  ∧ Nat.repr (([] : List Nat).length) = "0" := by
  refine ⟨?_, rfl, rfl⟩
  simpa using main_run_ok [] cmp DO_COMPRESS fn nm false rfl

/-- C6: invoked with a path and no emitted name (two argv entries), the
registration line quotes the path itself, character for character, with no
escaping. -/
theorem C6_default_name (data : List Nat) (cmp : List Nat → List Nat) (dc : Bool)
    (prog path : String) (h : dc = false ∨ data ≠ []) :
    ∃ flag : Bool, should_compress dc data (cmp data) = .ok flag ∧
      mainEntry (.ok data) cmp dc [prog, path]
        = ⟨outputFor path (if flag then cmp data else data) flag, 0⟩ := by
  obtain ⟨flag, hflag⟩ := should_compress_exists dc data (cmp data) h
  refine ⟨flag, hflag, ?_⟩
  have hm : mainEntry (.ok data) cmp dc [prog, path]
      = main_run (.ok data) cmp dc path none := by
    unfold mainEntry
    rw [if_neg (by simp)]
    rfl
  rw [hm]
  exact main_run_ok data cmp dc path none flag hflag

/-- Witness for C6 at a concrete invocation with a quote-free path. -/
theorem C6_default_name_witness :
    ∃ flag : Bool,
      should_compress false [9] ((fun _ => ([5] : List Nat)) [9]) = .ok flag ∧
      mainEntry (.ok [9]) (fun _ => ([5] : List Nat)) false ["databake.py", "assets/img.png"]
        = ⟨outputFor "assets/img.png"
            (if flag then (fun _ => ([5] : List Nat)) [9] else [9]) flag, 0⟩ :=
  C6_default_name [9] (fun _ => ([5] : List Nat)) false "databake.py" "assets/img.png"
    (Or.inl rfl)

/-- C7: when the file read fails, the process exits with a non-zero status
and nothing at all has been written to standard output — every write in the
source comes after the read and the compression decision, so a failure never
leaves a truncated fragment. -/
theorem C7_read_failure (cmp : List Nat → List Nat) (dc : Bool) (fn : String)
    (nm : Option String) :
    (main_run (.error ()) cmp dc fn nm).stdout = ""
  ∧ (main_run (.error ()) cmp dc fn nm).exitCode ≠ 0 :=
  ⟨rfl, Nat.one_ne_zero⟩

/-- C8: the run is a pure function of the file contents, the compressor, the
toggle, and the effective emitted name — two runs agreeing on those produce
identical results, hence byte-identical standard output. -/
theorem C8_deterministic (data : List Nat) (cmp : List Nat → List Nat) (dc : Bool)
    (fn1 fn2 : String) (nm1 nm2 : Option String)
    (h : effectiveName fn1 nm1 = effectiveName fn2 nm2) :
    main_run (.ok data) cmp dc fn1 nm1 = main_run (.ok data) cmp dc fn2 nm2 := by
  unfold main_run
  rw [h]

/-- Witness for C8: the same two-byte file registered under the same name
through different argument spellings gives identical output. -/
theorem C8_deterministic_witness :
    main_run (.ok [1, 2]) (fun _ => [3]) false "in.dat" none
      = main_run (.ok [1, 2]) (fun _ => [3]) false "other" (some "in.dat") :=
  C8_deterministic [1, 2] (fun _ => [3]) false "in.dat" "other" none (some "in.dat") rfl

/-- C9: an explicitly supplied empty emitted name is falsy in the source's
`if not emitted_name` test, so the run behaves exactly as if no name had
been supplied and registers under the input path. -/
theorem C9_empty_name_falsy (readResult : Except Unit (List Nat))
    (cmp : List Nat → List Nat) (dc : Bool) (fn : String) :
    effectiveName fn (some "") = fn
  ∧ main_run readResult cmp dc fn (some "") = main_run readResult cmp dc fn none := by
  refine ⟨rfl, ?_⟩
  unfold main_run
  rw [show effectiveName fn (some "") = effectiveName fn none from rfl]

/-- C10: with the toggle off `should_compress` short-circuits and never
divides, for every input including the empty one; with the toggle on, a
zero-length input makes the ratio divide by zero, so the run aborts with no
output; the empty-file case succeeds exactly when the toggle is off. -/
theorem C10_zero_division (cmp : List Nat → List Nat) (fn : String)
    (nm : Option String) :
    (∀ u c : List Nat, should_compress false u c = .ok false)
  ∧ (∀ c : List Nat, should_compress true [] c = .error ())
  ∧ main_run (.ok []) cmp true fn nm = ⟨"", 1⟩
  ∧ (main_run (.ok []) cmp false fn nm).exitCode = 0 :=
  ⟨fun _ _ => rfl, fun _ => rfl, rfl, rfl⟩
